import Mathlib

/-!
# Day scheduler and command dispatch of the bank-teller game

A shallow embedding of `internal/days.go` (the `Day` node sequencer and the
start-up shuffle of the `Days` table) and of `MainScene.Command` from
`internal/main_scene.go`, together with the properties the specification
states about them.

Conventions of the embedding.

* Go `int` and `time.Duration` values are `Int`; `int` is the 64-bit type.
  The one arithmetic result that can leave the range of `int`, the deferred
  `d.curr + 1`, wraps around as Go's signed addition does (`wrapInt`).  The
  subtraction `curr -= len(d.Sequence)` is reached with
  `curr >= len(d.Sequence) >= 0` only, so its result lies between 0 and `curr`.
* A Go slice is a `List`; the fact that the two slices of a Day are real Go
  slices, whose lengths are `int`s, is carried by the field `Day.fits`.
* A Go run-time panic is a value `Outcome.panic`; a normal return is
  `Outcome.ret`.
* `math/rand` is a source of raw numbers handed to the embedded function as an
  argument: `rand.Intn n` reduces the raw number into `[0, n)`, so quantifying
  over the raw number quantifies over every possible draw.
* The constant `DayLength` is declared outside the embedded files; it is a
  parameter of `Day.Next`.
-/

namespace LdJam53

/-! ## Go run-time model -/

/-- Run-time panics the embedded code can raise. -/
inductive GoPanic where
  /-- Slice index out of range. -/
  | indexOutOfRange
  /-- The call `rand.Intn(n)` with `n <= 0`: "invalid argument to Intn". -/
  | invalidArgumentToIntn
  /-- The call `rand.Shuffle(n, swap)` with `n < 0`. -/
  | invalidArgumentToShuffle
  deriving DecidableEq, Repr

/-- Result of running a Go function body: a returned value or a panic. -/
inductive Outcome (α : Type) where
  | ret (a : α)
  | panic (p : GoPanic)
  deriving DecidableEq, Repr

/-- Sequencing of two steps; a panic of the first step skips the second. -/
def Outcome.bind {α β : Type} (o : Outcome α) (f : α → Outcome β) : Outcome β :=
  match o with
  | .ret a => f a
  | .panic p => .panic p

/-- Largest value of Go's `int` (64 bits): `math.MaxInt64`. -/
def MaxInt : Int := 9223372036854775807

/-- Smallest value of Go's `int` (64 bits): `math.MinInt64`. -/
def MinInt : Int := -9223372036854775808

/-- Wrap-around of signed 64-bit arithmetic: the `int` that Go stores for the
mathematical result `x`, i.e. the number of `[-2^63, 2^63)` congruent to `x`
modulo `2^64`. -/
def wrapInt (x : Int) : Int :=
  (x + 9223372036854775808) % 18446744073709551616 - 9223372036854775808

/-- Go slice indexing `xs[i]` with an `int` index: panics outside `[0, len xs)`. -/
def index {α : Type} (xs : List α) (i : Int) : Outcome α :=
  if i < 0 then .panic .indexOutOfRange
  else
    match xs[i.toNat]? with
    | some x => .ret x
    | none => .panic .indexOutOfRange

/-- The call `rand.Intn(n)`: panics when `n <= 0`; otherwise some number of
`[0, n)`, here the raw number `r` of the random source reduced modulo `n`. -/
def Intn (n : Int) (r : Nat) : Outcome Int :=
  if n ≤ 0 then .panic .invalidArgumentToIntn else .ret ((r : Int) % n)

/-- Rune lowering of `unicode.ToLower`.  ASCII capitals move to their small
letters; U+0130 and U+212A are the two runes outside ASCII whose lower case is
an ASCII letter (`i` and `k`).  Every other rune outside ASCII lowers to a rune
outside ASCII and is left in place here, which cannot change whether a lowered
string equals an ASCII literal. -/
def unicodeToLower (c : Char) : Char :=
  if 'A' ≤ c ∧ c ≤ 'Z' then Char.ofNat (c.toNat + 32)
  else if c = Char.ofNat 0x130 then 'i'
  else if c = Char.ofNat 0x212A then 'k'
  else c

/-- The function `strings.ToLower`: every rune lowered. -/
def ToLower (s : String) : String :=
  String.mk (s.data.map unicodeToLower)

/-! ## `internal/days.go` -/

/-- The struct `Day`, restricted to the fields `Next` and `init` read or write.
The fields `Slips` and `Accounts` are touched by neither.  `fits` records that
`Sequence` and `Random` are Go slices: their lengths are `int`s, and as both
hold 16-byte string headers inside one 64-bit address space the two lengths
together stay below `2^63`. -/
structure Day where
  /-- Sequence of node names; the entry `random` stands for a random node. -/
  Sequence : List String
  /-- The random nodes that can occur this day. -/
  Random : List String
  /-- Node returned once the day is over. -/
  EndNode : String
  /-- The cursor. -/
  curr : Int
  /-- The two slices are Go slices. -/
  fits : Sequence.length + Random.length < 2 ^ 63 := by decide
  deriving DecidableEq, Repr

/-- The method `(*Day).Next`.  `DayLength` is the package constant, `t` the
time spent on the day, `r` the raw number the random source would deliver.
Returns the outcome of the call together with the Day after the call.  The
deferred closure increments `curr` on every exit taken after the first test,
a panic included; the incremented value is stored as an `int`, so it wraps
around from `MaxInt` to `MinInt`. -/
def Day.Next (DayLength : Int) (d : Day) (t : Int) (r : Nat) : Outcome String × Day :=
  if t ≥ DayLength then
    (.ret d.EndNode, d)
  else
    let after : Day := { d with curr := wrapInt (d.curr + 1) }
    let curr := d.curr
    if curr ≥ (d.Sequence.length : Int) then
      let curr := curr - (d.Sequence.length : Int)
      if curr ≥ (d.Random.length : Int) then
        ((Intn (d.Random.length : Int) r).bind (index d.Random), after)
      else
        (index d.Random curr, after)
    else
      match index d.Sequence curr with
      | .panic p => (.panic p, after)
      | .ret s =>
        if ToLower s = "random" then
          ((Intn (d.Random.length : Int) r).bind (index d.Random), after)
        else
          (.ret s, after)

/-- A run of calls to `Next` on one Day, each call given as its argument `t`
and the raw random number available to it.  Returns the outcomes in call order
and the Day after the last call.  A panicking call is kept in the run (the
deferred increment has already happened when the panic leaves `Next`). -/
def runCalls (DayLength : Int) : Day → List (Int × Nat) → List (Outcome String) × Day
  | d, [] => ([], d)
  | d, c :: cs =>
    let step := d.Next DayLength c.1 c.2
    let rest := runCalls DayLength step.2 cs
    (step.1 :: rest.1, rest.2)

/-- The table `Days` as written in the source, before `init` has run. -/
def Days : List Day :=
  [ { EndNode := "Manager_Day1_End"
      Sequence := ["Manager_Day1", "random", "random", "random", "drone", "random", "random",
        "OldMan"]
      Random := ["RandomDeposit_Polite", "RandomDeposit_Rude", "RandomDeposit_Polite",
        "RandomDeposit_Rude", "RandomWithdrawal_Polite", "RandomWithdrawal_Rude"]
      curr := 0 },
    { EndNode := "Manager_Day2_End"
      Sequence := []
      Random := ["RandomDeposit_Polite", "RandomDeposit_Rude", "RandomDeposit_Polite",
        "RandomDeposit_Rude", "RandomWithdrawal_Polite", "RandomWithdrawal_Rude"]
      curr := 0 } ]

/-- The closure `init` hands to `rand.Shuffle`:
`day.Random[i], day.Random[j] = day.Random[j], day.Random[i]`.
Both operands are read first (either read may panic), then position `i` and
position `j` are written in that order.  The slice is written in place: it
keeps its length `n`. -/
def swapRandom {n : Nat} (i j : Int) (pool : { xs : List String // xs.length = n }) :
    Outcome { xs : List String // xs.length = n } :=
  (index pool.1 j).bind fun vj =>
    (index pool.1 i).bind fun vi =>
      .ret ⟨(pool.1.set i.toNat vj).set j.toNat vi, by simp [pool.2]⟩

/-- The loop of `rand.Shuffle`, entered with loop variable `i`: while `i > 0`
draw `j` from `[0, i]`, call `swap(i, j)`, decrement `i`.  `rnd i` is the raw
number the random source delivers at loop variable `i`. -/
def shuffleFrom {σ : Type} (rnd : Nat → Nat) (swap : Int → Int → σ → Outcome σ) :
    Nat → σ → Outcome σ
  | 0, s => .ret s
  | i + 1, s =>
    (swap ((i + 1 : Nat) : Int) ((rnd (i + 1) % (i + 2) : Nat) : Int) s).bind
      (shuffleFrom rnd swap i)

/-- The function `rand.Shuffle(n, swap)` acting on a state `s` the closure
`swap` mutates: panics for `n < 0`, otherwise runs the loop from `i = n - 1`. -/
def Shuffle {σ : Type} (n : Int) (rnd : Nat → Nat) (swap : Int → Int → σ → Outcome σ)
    (s : σ) : Outcome σ :=
  if n < 0 then .panic .invalidArgumentToShuffle
  else shuffleFrom rnd swap (n - 1).toNat s

/-- The loop of `init` from the `k`-th entry of the table on: each Day's
`Random` slice is shuffled in place (the loop variable `day` is a copy of the
struct whose slice shares the table's backing array).  `rnd k` is the random
source as seen by the shuffle of the `k`-th Day. -/
def initFrom (rnd : Nat → Nat → Nat) : Nat → List Day → Outcome (List Day)
  | _, [] => .ret []
  | k, day :: rest =>
    (Shuffle (day.Random.length : Int) (rnd k) swapRandom ⟨day.Random, rfl⟩).bind fun pool =>
      (initFrom rnd (k + 1) rest).bind fun rest1 =>
        .ret ({ day with
                Random := pool.1
                fits := by have h1 := pool.2; have h2 := day.fits; omega } :: rest1)

/-- The package function `init` applied to a table of Days. -/
def init (rnd : Nat → Nat → Nat) (days : List Day) : Outcome (List Day) :=
  initFrom rnd 0 days

/-! ## `internal/main_scene.go` -/

/-- A Go `error` value made by `fmt.Errorf`, identified by its message. -/
structure GoError where
  msg : String
  deriving DecidableEq, Repr

/-- The predicate `unicode.IsSpace`: the Latin-1 spaces and the runes with the
Unicode property White_Space. -/
def IsSpace (c : Char) : Bool :=
  let n := c.toNat
  n = 0x09 || n = 0x0A || n = 0x0B || n = 0x0C || n = 0x0D || n = 0x20 ||
  n = 0x85 || n = 0xA0 || n = 0x1680 || (0x2000 ≤ n && n ≤ 0x200A) ||
  n = 0x2028 || n = 0x2029 || n = 0x202F || n = 0x205F || n = 0x3000

/-- The function `strings.TrimSpace`: leading and trailing white space removed. -/
def TrimSpace (s : String) : String :=
  String.mk ((s.data.dropWhile IsSpace).reverse.dropWhile IsSpace).reverse

/-- Pieces of a rune list between occurrences of the rune `sep`. -/
def splitRunes (sep : Char) : List Char → List (List Char)
  | [] => [[]]
  | c :: cs =>
    if c = sep then [] :: splitRunes sep cs
    else
      match splitRunes sep cs with
      | [] => [[c]]
      | w :: ws => (c :: w) :: ws

/-- The function `strings.Split(s, sep)` for a separator of one rune. -/
def Split (s : String) (sep : Char) : List String :=
  (splitRunes sep s.data).map String.mk

/-- The struct `MainScene`, restricted to fields whose types the embedded
files declare or that are plain data: the current Day and the drag state. -/
structure MainScene where
  /-- The Day being played. -/
  Day : Day
  /-- Where the current drag started (`image.Point`). -/
  clickStart : Int × Int
  /-- Offset of the held sprite from the cursor (`image.Point`). -/
  clickOffset : Int × Int
  deriving DecidableEq, Repr

/-- The method `(*MainScene).Command`.  Returns the outcome of the call (the
returned `error`, `none` for `nil`), the scene after the call and the lines
written to standard output.  The `switch` on `tokens[0]` has no case besides
`default`. -/
def MainScene.Command (m : MainScene) (command : String) :
    Outcome (Option GoError) × MainScene × List String :=
  let printed := ["run command: " ++ command]
  let command := TrimSpace command
  let tokens := Split command ' '
  if tokens.length = 0 then
    (.ret (some { msg := "bad command: " ++ command }), m, printed)
  else
    match index tokens 0 with
    | .panic p => (.panic p, m, printed)
    | .ret tok => (.ret (some { msg := "unknown command " ++ tok }), m, printed)

/-! ## Auxiliary definitions used in the statements -/

/-- What `init` may change of a Day: the order of its pool and nothing else. -/
def shuffledFrom (d d1 : Day) : Prop :=
  d1.Random.Perm d.Random ∧ d1.Sequence = d.Sequence ∧ d1.EndNode = d.EndNode ∧ d1.curr = d.curr

/-- The Day of the sequence-fidelity test: sequence `[A, B, "random"]`, pool `[R1, R2]`. -/
def dayFidelity : Day :=
  { Sequence := ["A", "B", "random"], Random := ["R1", "R2"], EndNode := "End", curr := 0 }

/-- The Day of the pool-walk test: empty sequence, pool `[R1, R2]`. -/
def dayWalk : Day :=
  { Sequence := [], Random := ["R1", "R2"], EndNode := "End", curr := 0 }

/-- A Day with an empty pool whose sequence holds the reserved token. -/
def dayEmptyPool : Day :=
  { Sequence := ["A", "random"], Random := [], EndNode := "End", curr := 0 }

/-- A random source for `init`: at loop variable 2 the shuffle draws `j = 1`,
at every other loop variable `i` it draws `j = i`. -/
def rndAdjacent : Nat → Nat → Nat :=
  fun _ i => if i = 2 then 1 else i

/-- The first Day of the table after `init` has run on `rndAdjacent`. -/
def dayAdjacent : Day :=
  { EndNode := "Manager_Day1_End"
    Sequence := ["Manager_Day1", "random", "random", "random", "drone", "random", "random",
      "OldMan"]
    Random := ["RandomDeposit_Polite", "RandomDeposit_Polite", "RandomDeposit_Rude",
      "RandomDeposit_Rude", "RandomWithdrawal_Polite", "RandomWithdrawal_Rude"]
    curr := 0 }

/-- A scene at the start of the first Day. -/
def sceneStart : MainScene :=
  { Day := dayAdjacent, clickStart := (0, 0), clickOffset := (0, 0) }


/-! ## Facts about the run-time model -/

theorem index_natCast {α : Type} (xs : List α) (k : Nat) (h : k < xs.length) :
    index xs (k : Int) = .ret xs[k] := by
  have h0 : ¬ ((k : Int) < 0) := by omega
  simp [index, h0, List.getElem?_eq_getElem h]

theorem Intn_bind_index (xs : List String) (r : Nat) (h : xs ≠ []) :
    ∃ s, xs[r % xs.length]? = some s ∧ s ∈ xs ∧
      (Intn (xs.length : Int) r).bind (index xs) = .ret s := by
  have hpos : 0 < xs.length := List.length_pos.mpr h
  have hlt : r % xs.length < xs.length := Nat.mod_lt _ hpos
  refine ⟨xs[r % xs.length], List.getElem?_eq_getElem hlt, List.getElem_mem _, ?_⟩
  have hn : ¬ ((xs.length : Int) ≤ 0) := by omega
  have hcast : ((r : Int) % (xs.length : Int)) = ((r % xs.length : Nat) : Int) := by
    simp
  simp only [Intn, hn, if_false, Outcome.bind, hcast]
  exact index_natCast xs _ hlt

theorem Intn_bind_index_nil (r : Nat) :
    (Intn (([] : List String).length : Int) r).bind (index ([] : List String))
      = .panic .invalidArgumentToIntn := by
  simp [Intn, Outcome.bind]

theorem wrapInt_of_range (x : Int) (hlo : MinInt ≤ x) (hhi : x ≤ MaxInt) : wrapInt x = x := by
  unfold MinInt at hlo
  unfold MaxInt at hhi
  unfold wrapInt
  omega

theorem wrapInt_add (x y : Int) : wrapInt (wrapInt x + y) = wrapInt (x + y) := by
  unfold wrapInt
  omega

/-! ## Facts about `Day.Next` -/

theorem Next_over (DayLength : Int) (d : Day) (t : Int) (r : Nat) (h : DayLength ≤ t) :
    d.Next DayLength t r = (.ret d.EndNode, d) := by
  simp [Day.Next, h]

theorem Next_snd (DayLength : Int) (d : Day) (t : Int) (r : Nat) (h : t < DayLength) :
    (d.Next DayLength t r).2 = { d with curr := wrapInt (d.curr + 1) } := by
  have h1 : ¬ (t ≥ DayLength) := by omega
  unfold Day.Next
  simp only [h1, if_false]
  split_ifs
  · rfl
  · rfl
  · split
    · rfl
    · split_ifs <;> rfl

theorem Next_pool (DayLength : Int) (d : Day) (t : Int) (r : Nat) (k : Nat)
    (h : t < DayLength) (hc : d.curr = (d.Sequence.length : Int) + (k : Int))
    (hk : k < d.Random.length) :
    (d.Next DayLength t r).1 = .ret d.Random[k] := by
  have h1 : ¬ (t ≥ DayLength) := by omega
  have h2 : d.curr ≥ (d.Sequence.length : Int) := by omega
  have h3 : ¬ (d.curr - (d.Sequence.length : Int) ≥ (d.Random.length : Int)) := by omega
  have h4 : d.curr - (d.Sequence.length : Int) = (k : Int) := by omega
  have h5 : ¬ ((k : Int) ≥ (d.Random.length : Int)) := by omega
  simp only [Day.Next, h1, h2, h3, if_false, if_true, h4, h5]
  exact index_natCast _ _ hk

theorem Next_fixed (DayLength : Int) (d : Day) (t : Int) (r : Nat) (c : Nat)
    (h : t < DayLength) (hc : d.curr = (c : Int)) (hlt : c < d.Sequence.length)
    (hne : ToLower d.Sequence[c] ≠ "random") :
    (d.Next DayLength t r).1 = .ret d.Sequence[c] := by
  have h1 : ¬ (t ≥ DayLength) := by omega
  have h2 : ¬ ((c : Int) ≥ (d.Sequence.length : Int)) := by omega
  simp only [Day.Next, h1, h2, if_false, hc, index_natCast _ _ hlt, hne]

theorem Next_sampled (DayLength : Int) (d : Day) (t : Int) (r : Nat)
    (h : t < DayLength)
    (hcur : (∃ c : Nat, d.curr = (c : Int) ∧ ∃ hlt : c < d.Sequence.length,
              ToLower d.Sequence[c] = "random")
            ∨ d.curr - (d.Sequence.length : Int) ≥ (d.Random.length : Int)) :
    (d.Next DayLength t r).1 = (Intn (d.Random.length : Int) r).bind (index d.Random) := by
  have h1 : ¬ (t ≥ DayLength) := by omega
  rcases hcur with ⟨c, hc, hlt, htok⟩ | hpast
  · have h2 : ¬ ((c : Int) ≥ (d.Sequence.length : Int)) := by omega
    simp only [Day.Next, h1, h2, if_false, hc, index_natCast _ _ hlt, htok, if_true]
  · have h2 : d.curr ≥ (d.Sequence.length : Int) := by omega
    simp only [Day.Next, h1, h2, hpast, if_false, if_true]


/-! ## Facts about the start-up shuffle -/

theorem getElem_set_other (l : List String) (a b : Nat)
    (hb : b < l.length) (h : b < (l.set a l[b]).length) : (l.set a l[b])[b] = l[b] := by
  rw [List.getElem_set]
  split <;> rfl

theorem swap_perm (l : List String) (a b : Nat) (ha : a < l.length) (hb : b < l.length) :
    ((l.set a l[b]).set b l[a]).Perm l := by
  rw [List.perm_iff_count]
  intro x
  have hb1 : b < (l.set a l[b]).length := by simpa using hb
  rw [List.count_set _ _ _ _ hb1, List.count_set _ _ _ _ ha, getElem_set_other l a b hb hb1]
  have hA : (if l[a] == x then 1 else 0) ≤ l.count x := by
    split
    · rename_i h
      have hx : l[a] = x := by simpa using h
      exact List.count_pos_iff.mpr (hx ▸ List.getElem_mem _)
    · exact Nat.zero_le _
  omega

theorem swapRandom_perm {n : Nat} (pool out : { xs : List String // xs.length = n })
    (i j : Int) (h : swapRandom i j pool = .ret out) : out.1.Perm pool.1 := by
  unfold swapRandom index at h
  by_cases hj : j < 0
  · simp [hj, Outcome.bind] at h
  by_cases hi : i < 0
  · simp [hj, hi, Outcome.bind] at h
    split at h <;> simp at h
  simp only [hj, hi, if_false] at h
  cases hgj : pool.1[j.toNat]? with
  | none => simp [hgj, Outcome.bind] at h
  | some vj =>
    cases hgi : pool.1[i.toNat]? with
    | none => simp [hgj, hgi, Outcome.bind] at h
    | some vi =>
      simp only [hgj, hgi, Outcome.bind] at h
      obtain ⟨hjl, hjv⟩ := List.getElem?_eq_some_iff.mp hgj
      obtain ⟨hil, hiv⟩ := List.getElem?_eq_some_iff.mp hgi
      have := swap_perm pool.1 i.toNat j.toNat hil hjl
      rw [hjv, hiv] at this
      have hval := congrArg Subtype.val (Outcome.ret.inj h)
      rw [← hval]; exact this

theorem swapRandom_inRange {n : Nat} (pool : { xs : List String // xs.length = n })
    (i j : Nat) (hi : i < n) (hj : j < n) :
    ∃ out, swapRandom (i : Int) (j : Int) pool = .ret out := by
  have hi1 : i < pool.1.length := by rw [pool.2]; exact hi
  have hj1 : j < pool.1.length := by rw [pool.2]; exact hj
  simp [swapRandom, index_natCast _ _ hi1, index_natCast _ _ hj1, Outcome.bind]

theorem shuffleFrom_perm {n : Nat} (rnd : Nat → Nat) (i : Nat) (hlt : i < n) :
    ∀ pool : { xs : List String // xs.length = n },
      ∃ out, shuffleFrom rnd swapRandom i pool = .ret out ∧ out.1.Perm pool.1 := by
  induction i with
  | zero => intro pool; exact ⟨pool, rfl, List.Perm.refl _⟩
  | succ i ih =>
    intro pool
    have hj : rnd (i + 1) % (i + 2) < n :=
      lt_of_lt_of_le (Nat.mod_lt _ (by omega)) (by omega)
    obtain ⟨mid, hmid⟩ := swapRandom_inRange pool (i + 1) (rnd (i + 1) % (i + 2)) hlt hj
    have hperm := swapRandom_perm _ _ _ _ hmid
    obtain ⟨out, hout, hp⟩ := ih (by omega) mid
    refine ⟨out, ?_, hp.trans hperm⟩
    simp only [shuffleFrom, hmid, Outcome.bind, hout]

theorem Shuffle_perm (rnd : Nat → Nat) (pool : List String) :
    ∃ out, Shuffle (pool.length : Int) rnd swapRandom
        (⟨pool, rfl⟩ : { xs : List String // xs.length = pool.length }) = .ret out ∧
      out.1.Perm pool := by
  have h0 : ¬ ((pool.length : Int) < 0) := by omega
  simp only [Shuffle, h0, if_false]
  by_cases hp : pool.length = 0
  · refine ⟨⟨pool, rfl⟩, ?_, List.Perm.refl _⟩
    simp [hp, shuffleFrom]
  · exact shuffleFrom_perm rnd _ (by omega) _


theorem initFrom_shuffled (rnd : Nat → Nat → Nat) (days : List Day) :
    ∀ k, ∃ out, initFrom rnd k days = .ret out ∧ List.Forall₂ shuffledFrom days out := by
  induction days with
  | nil => intro k; exact ⟨[], rfl, List.Forall₂.nil⟩
  | cons day rest ih =>
    intro k
    obtain ⟨pool, hpool, hperm⟩ := Shuffle_perm (rnd k) day.Random
    obtain ⟨rest1, hrest, hall⟩ := ih (k + 1)
    refine ⟨{ day with
        Random := pool.1
        fits := by have h1 := pool.2; have h2 := day.fits; omega } :: rest1, ?_,
      List.Forall₂.cons ⟨hperm, rfl, rfl, rfl⟩ hall⟩
    simp only [initFrom, hpool, Outcome.bind, hrest]

/-! ## Facts about runs of calls -/

theorem runCalls_curr_wrap (DayLength : Int) (calls : List (Int × Nat)) :
    ∀ d : Day, wrapInt (runCalls DayLength d calls).2.curr
      = wrapInt (d.curr + ((calls.filter (fun c => decide (c.1 < DayLength))).length : Int)) := by
  induction calls with
  | nil => intro d; simp [runCalls]
  | cons c cs ih =>
    intro d
    simp only [runCalls, ih]
    by_cases h : c.1 < DayLength
    · simp only [Next_snd DayLength d c.1 c.2 h, h, decide_True, List.filter_cons_of_pos,
        List.length_cons, wrapInt_add]
      congr 1
      push_cast
      ring
    · have h1 : DayLength ≤ c.1 := by omega
      simp [Next_over DayLength d c.1 c.2 h1, h]

theorem runCalls_curr_range (DayLength : Int) (calls : List (Int × Nat)) :
    ∀ d : Day, MinInt ≤ d.curr → d.curr ≤ MaxInt →
      MinInt ≤ (runCalls DayLength d calls).2.curr ∧
        (runCalls DayLength d calls).2.curr ≤ MaxInt := by
  induction calls with
  | nil => intro d hlo hhi; exact ⟨hlo, hhi⟩
  | cons c cs ih =>
    intro d hlo hhi
    simp only [runCalls]
    apply ih
    · by_cases h : c.1 < DayLength
      · rw [Next_snd DayLength d c.1 c.2 h]
        show MinInt ≤ wrapInt (d.curr + 1)
        unfold MinInt wrapInt
        omega
      · rw [Next_over DayLength d c.1 c.2 (by omega)]
        exact hlo
    · by_cases h : c.1 < DayLength
      · rw [Next_snd DayLength d c.1 c.2 h]
        show wrapInt (d.curr + 1) ≤ MaxInt
        unfold MaxInt wrapInt
        omega
      · rw [Next_over DayLength d c.1 c.2 (by omega)]
        exact hhi

theorem runCalls_curr (DayLength : Int) (calls : List (Int × Nat)) (d : Day)
    (hlo : MinInt ≤ d.curr) (hhi : d.curr ≤ MaxInt) :
    (runCalls DayLength d calls).2.curr
      = wrapInt (d.curr + ((calls.filter (fun c => decide (c.1 < DayLength))).length : Int)) := by
  have hr := runCalls_curr_range DayLength calls d hlo hhi
  rw [← runCalls_curr_wrap, wrapInt_of_range _ hr.1 hr.2]

theorem runCalls_walk (DayLength : Int) (calls : List (Int × Nat)) :
    ∀ (d : Day) (k : Nat), d.curr = (d.Sequence.length : Int) + (k : Int) →
      k + calls.length ≤ d.Random.length → (∀ c ∈ calls, c.1 < DayLength) →
      (runCalls DayLength d calls).1 = ((d.Random.drop k).take calls.length).map Outcome.ret := by
  induction calls with
  | nil => intro d k _ _ _; simp [runCalls]
  | cons c cs ih =>
    intro d k hc hlen hall
    have ht : c.1 < DayLength := hall c (List.mem_cons_self _ _)
    have hk : k < d.Random.length := by simp at hlen; omega
    have hfit := d.fits
    have hwrap : wrapInt (d.curr + 1) = d.curr + 1 := by
      apply wrapInt_of_range <;> simp only [MinInt, MaxInt] <;> omega
    have hstep := Next_snd DayLength d c.1 c.2 ht
    rw [hwrap] at hstep
    have hrest := ih (d.Next DayLength c.1 c.2).2 (k + 1)
      (by rw [hstep]; simp [hc]; ring)
      (by rw [hstep]; simp at hlen ⊢; omega)
      (fun x hx => hall x (List.mem_cons_of_mem _ hx))
    rw [hstep] at hrest
    simp only [runCalls, Next_pool DayLength d c.1 c.2 k ht hc hk, hstep, hrest]
    rw [List.drop_eq_getElem_cons hk, List.length_cons, List.take_succ_cons, List.map_cons]

theorem filter_replicate_length {α : Type} (n : Nat) (a : α) (p : α → Bool)
    (h : p a = true) : ((List.replicate n a).filter p).length = n := by
  induction n with
  | zero => rfl
  | succ n ih => rw [List.replicate_succ, List.filter_cons_of_pos h, List.length_cons, ih]

theorem runCalls_append (DayLength : Int) (xs ys : List (Int × Nat)) :
    ∀ d : Day, (runCalls DayLength d (xs ++ ys)).1
      = (runCalls DayLength d xs).1 ++ (runCalls DayLength (runCalls DayLength d xs).2 ys).1 := by
  induction xs with
  | nil => intro d; simp [runCalls]
  | cons c cs ih => intro d; simp [runCalls, ih]

theorem runCalls_length (DayLength : Int) (calls : List (Int × Nat)) :
    ∀ d : Day, (runCalls DayLength d calls).1.length = calls.length := by
  induction calls with
  | nil => intro d; simp [runCalls]
  | cons c cs ih => intro d; simp [runCalls, ih]

theorem runCalls_state (DayLength : Int) (calls : List (Int × Nat)) :
    ∀ d : Day, (∀ c ∈ calls, c.1 < DayLength) → MinInt ≤ d.curr →
      d.curr + (calls.length : Int) ≤ MaxInt →
      (runCalls DayLength d calls).2 = { d with curr := d.curr + (calls.length : Int) } := by
  induction calls with
  | nil => intro d _ _ _; simp [runCalls]
  | cons c cs ih =>
    intro d hall hlo hhi
    have ht : c.1 < DayLength := hall c (List.mem_cons_self _ _)
    simp only [List.length_cons, Nat.cast_add, Nat.cast_one] at hhi
    have hwrap : wrapInt (d.curr + 1) = d.curr + 1 := by
      apply wrapInt_of_range <;> omega
    have hstep := Next_snd DayLength d c.1 c.2 ht
    rw [hwrap] at hstep
    simp only [runCalls, hstep]
    rw [ih _ (fun x hx => hall x (List.mem_cons_of_mem _ hx)) (by simp; omega) (by simp; omega)]
    simp; ring

/-! ## Facts about `MainScene.Command` -/

theorem splitRunes_head (sep : Char) (cs : List Char) :
    ∃ rest, splitRunes sep cs = cs.takeWhile (fun c => decide (c ≠ sep)) :: rest := by
  induction cs with
  | nil => exact ⟨[], rfl⟩
  | cons c cs ih =>
    obtain ⟨rest, hrest⟩ := ih
    by_cases h : c = sep
    · exact ⟨splitRunes sep cs, by simp [splitRunes, h]⟩
    · exact ⟨rest, by simp [splitRunes, h, hrest]⟩


/-! ## The claims about `Day.Next` -/

/-- C1 (day-end determinism): for every Day, whatever its sequence, pool and
cursor, and every raw random number, a call `Next(t)` with `t >= DayLength`
returns exactly `d.EndNode` (and leaves the Day as it was). -/
theorem C1_day_end_determinism (DayLength : Int) (d : Day) (t : Int) (r : Nat)
    (h : t ≥ DayLength) :
    (d.Next DayLength t r).1 = .ret d.EndNode ∧ (d.Next DayLength t r).2 = d := by
  rw [Next_over DayLength d t r h]
  exact ⟨rfl, rfl⟩

/-- C1 at a concrete input: cursor 7, `DayLength = 100`, `t = 100`. -/
theorem C1_day_end_determinism_witness :
    (100 : Int) ≥ 100 ∧
      (({ dayFidelity with curr := 7 } : Day).Next 100 100 5).1 = .ret "End" :=
  ⟨by decide, (C1_day_end_determinism 100 { dayFidelity with curr := 7 } 100 5 (by decide)).1⟩

/-- C2 as stated fails where the cursor leaves the range of `int`: a call with
`t < DayLength` on a Day whose cursor is `MaxInt` stores `MinInt`, so the
cursor is not advanced by one and it decreases; and on the pool-walk Day,
which starts with cursor 0, the run of `2^63` calls with `t < DayLength` ends
with the cursor at `MinInt`, not at the number of calls made. -/
theorem C2_counterexample :
    (({ dayWalk with curr := MaxInt } : Day).Next 100 0 0).2.curr = MinInt ∧
    MinInt < MaxInt ∧
    dayWalk.curr = 0 ∧
    ((List.replicate (2 ^ 63) ((0 : Int), 0)).filter (fun c => decide (c.1 < 100))).length
      = 2 ^ 63 ∧
    (runCalls 100 dayWalk (List.replicate (2 ^ 63) ((0 : Int), 0))).2.curr = MinInt := by
  have hlen := filter_replicate_length (2 ^ 63) ((0 : Int), 0)
    (fun c => decide (c.1 < 100)) (by decide)
  refine ⟨by decide, by decide, rfl, hlen, ?_⟩
  rw [runCalls_curr 100 _ dayWalk (by decide) (by decide), hlen]
  decide

/-- C2 amended (cursor monotonicity within the range of `int`): a call with
`t >= DayLength` leaves the cursor unchanged and a call with `t < DayLength`
made at a cursor below `MaxInt` advances it by exactly one on every path (a
panicking path included); so on a Day that started with cursor 0, after any
finite run of calls of which fewer than `2^63` have `t < DayLength`, the cursor
equals the number of calls made with `t < DayLength`, and over any run that
keeps the cursor within `MaxInt` the cursor never decreases.  At cursor
`MaxInt` a call with `t < DayLength` wraps the cursor to `MinInt`. -/
theorem C2_cursor_monotonicity (DayLength : Int) (d : Day) (calls : List (Int × Nat)) :
    (∀ (t : Int) (r : Nat), MinInt ≤ d.curr → d.curr < MaxInt →
        (d.Next DayLength t r).2.curr = if t < DayLength then d.curr + 1 else d.curr) ∧
    (d.curr = 0 →
        (calls.filter (fun c => decide (c.1 < DayLength))).length < 2 ^ 63 →
        (runCalls DayLength d calls).2.curr
          = ((calls.filter (fun c => decide (c.1 < DayLength))).length : Int)) ∧
    (MinInt ≤ d.curr →
        d.curr + ((calls.filter (fun c => decide (c.1 < DayLength))).length : Int) ≤ MaxInt →
        d.curr ≤ (runCalls DayLength d calls).2.curr) ∧
    (∀ (t : Int) (r : Nat), d.curr = MaxInt → t < DayLength →
        (d.Next DayLength t r).2.curr = MinInt) := by
  refine ⟨?_, ?_, ?_, ?_⟩
  · intro t r hlo hhi
    by_cases h : t < DayLength
    · rw [Next_snd DayLength d t r h]
      simp only [h, if_true]
      exact wrapInt_of_range _ (by omega) (by omega)
    · have h1 : DayLength ≤ t := by omega
      simp [Next_over DayLength d t r h1, h]
  · intro h0 hcount
    have hlo : MinInt ≤ d.curr := by rw [h0]; decide
    have hhi : d.curr ≤ MaxInt := by rw [h0]; decide
    rw [runCalls_curr DayLength calls d hlo hhi, h0, zero_add]
    apply wrapInt_of_range <;> simp only [MinInt, MaxInt] <;> omega
  · intro hlo hhi
    have hhi0 : d.curr ≤ MaxInt := by omega
    rw [runCalls_curr DayLength calls d hlo hhi0, wrapInt_of_range _ (by omega) hhi]
    omega
  · intro t r hmax ht
    rw [Next_snd DayLength d t r ht]
    show wrapInt (d.curr + 1) = MinInt
    rw [hmax]
    decide

/-- C2 amended at a concrete input: five calls on the fidelity Day, two of
them after the day is over; the cursor ends at 3. -/
theorem C2_cursor_monotonicity_witness :
    dayFidelity.curr = 0 ∧
      ([((0 : Int), 0), (100, 1), (50, 2), (250, 3), (99, 4)].filter
        (fun c => decide (c.1 < 100))).length < 2 ^ 63 ∧
      (runCalls 100 dayFidelity [(0, 0), (100, 1), (50, 2), (250, 3), (99, 4)]).2.curr = 3 :=
  ⟨rfl, by decide, (C2_cursor_monotonicity 100 dayFidelity
    [(0, 0), (100, 1), (50, 2), (250, 3), (99, 4)]).2.1 rfl (by decide)⟩

/-- C3 (sequence fidelity): for `t < DayLength` and a pre-advance cursor `c`
inside the sequence, if `strings.ToLower(Sequence[c])` is not `"random"` the
call returns `Sequence[c]` itself, whatever the random source delivers. -/
theorem C3_sequence_fidelity (DayLength : Int) (d : Day) (t : Int) (r : Nat) (c : Nat)
    (ht : t < DayLength) (hc : d.curr = (c : Int)) (hlt : c < d.Sequence.length)
    (hne : ToLower d.Sequence[c] ≠ "random") :
    (d.Next DayLength t r).1 = .ret d.Sequence[c] :=
  Next_fixed DayLength d t r c ht hc hlt hne

/-- C3 on the Day `[A, B, "random"]` with pool `[R1, R2]`: call 1 returns `A`
and call 2, made on the Day call 1 left behind, returns `B`. -/
theorem C3_sequence_fidelity_witness :
    (dayFidelity.Next 100 0 0).1 = .ret "A" ∧
      ((dayFidelity.Next 100 0 0).2.Next 100 1 0).1 = .ret "B" :=
  ⟨C3_sequence_fidelity 100 dayFidelity 0 0 0 (by decide) rfl (by decide) (by decide),
   C3_sequence_fidelity 100 (dayFidelity.Next 100 0 0).2 1 0 1 (by decide) rfl (by decide)
     (by decide)⟩

/-- C4 (pool exhaustion walk): for `t < DayLength` and a pre-advance cursor `c`
with `len(Sequence) <= c < len(Sequence) + len(Random)` the call returns
`Random[c - len(Sequence)]` for every raw random number; hence on a Day with
empty sequence and cursor 0 the first `len(Random)` calls return the pool
entries in pool order, each position once. -/
theorem C4_pool_exhaustion_walk (DayLength : Int) (d : Day) :
    (∀ t : Int, t < DayLength → (d.Sequence.length : Int) ≤ d.curr →
        d.curr < (d.Sequence.length : Int) + (d.Random.length : Int) →
        ∃ s, d.Random[(d.curr - (d.Sequence.length : Int)).toNat]? = some s ∧
          ∀ r : Nat, (d.Next DayLength t r).1 = .ret s) ∧
    (∀ calls : List (Int × Nat), d.Sequence = [] → d.curr = 0 →
        calls.length = d.Random.length → (∀ c ∈ calls, c.1 < DayLength) →
        (runCalls DayLength d calls).1 = d.Random.map Outcome.ret) := by
  constructor
  · intro t ht hlo hhi
    have hk : (d.curr - (d.Sequence.length : Int)).toNat < d.Random.length := by omega
    refine ⟨d.Random[(d.curr - (d.Sequence.length : Int)).toNat],
      List.getElem?_eq_getElem hk, fun r => ?_⟩
    exact Next_pool DayLength d t r _ ht (by omega) hk
  · intro calls hseq hcur hlen hall
    have h := runCalls_walk DayLength calls d 0 (by simp [hseq, hcur]) (by omega) hall
    rw [h, hlen]
    simp

/-- C4 on the Day with empty sequence and pool `[R1, R2]`: the first two
calls return `R1` then `R2`. -/
theorem C4_pool_exhaustion_walk_witness :
    (runCalls 100 dayWalk [(0, 7), (1, 8)]).1 = [.ret "R1", .ret "R2"] :=
  (C4_pool_exhaustion_walk 100 dayWalk).2 [(0, 7), (1, 8)] rfl rfl rfl (by decide)

/-- C5 (sampled results come from the pool): on a Day with a non-empty pool,
for `t < DayLength`, when the pre-advance cursor points at a sequence entry
whose lower-cased form is `"random"`, or when `c - len(Sequence) >= len(Random)`,
the call returns normally an element of `Random`, the one at the index drawn,
for every raw random number. -/
theorem C5_sampled_from_pool (DayLength : Int) (d : Day) (t : Int) (r : Nat)
    (hpool : d.Random ≠ []) (ht : t < DayLength)
    (hcur : (∃ c : Nat, d.curr = (c : Int) ∧ ∃ hlt : c < d.Sequence.length,
              ToLower d.Sequence[c] = "random")
            ∨ d.curr - (d.Sequence.length : Int) ≥ (d.Random.length : Int)) :
    ∃ s, d.Random[r % d.Random.length]? = some s ∧ s ∈ d.Random ∧
      (d.Next DayLength t r).1 = .ret s := by
  rw [Next_sampled DayLength d t r ht hcur]
  exact Intn_bind_index d.Random r hpool

/-- C5 at concrete inputs: the third call on the fidelity Day, whose entry is
spelled `RANDOM` here, and a call past the first pass of the pool. -/
theorem C5_sampled_from_pool_witness :
    (∃ s, s ∈ ["R1", "R2"] ∧
      (({ dayFidelity with Sequence := ["A", "B", "RANDOM"], curr := 2 } : Day).Next 100 0 5).1
        = .ret s) ∧
    (∃ s, s ∈ ["R1", "R2"] ∧ (({ dayWalk with curr := 9 } : Day).Next 100 0 4).1 = .ret s) :=
  ⟨(C5_sampled_from_pool 100 { dayFidelity with Sequence := ["A", "B", "RANDOM"], curr := 2 }
      0 5 (by decide) (by decide) (Or.inl ⟨2, rfl, by decide, by decide⟩)).imp
      (fun _ h => ⟨h.2.1, h.2.2⟩),
   (C5_sampled_from_pool 100 { dayWalk with curr := 9 } 0 4 (by decide) (by decide)
      (Or.inr (by decide))).imp (fun _ h => ⟨h.2.1, h.2.2⟩)⟩


/-! ## The claims about the start-up shuffle and the pools -/

/-- C6 (shuffle preserves multiset): for every table of Days and every random
source, `init` returns normally, and each Day of the resulting table has a
pool of the same length as before holding every identifier the same number of
times as before; sequence, end node and cursor are untouched. -/
theorem C6_shuffle_preserves_multiset (rnd : Nat → Nat → Nat) (days : List Day) :
    ∃ out, init rnd days = .ret out ∧
      List.Forall₂ (fun d d1 : Day =>
        d1.Random.length = d.Random.length ∧
        (∀ id : String, d1.Random.count id = d.Random.count id) ∧
        d1.Random.Perm d.Random ∧
        d1.Sequence = d.Sequence ∧ d1.EndNode = d.EndNode ∧ d1.curr = d.curr) days out := by
  obtain ⟨out, hout, hall⟩ := initFrom_shuffled rnd days 0
  refine ⟨out, hout, hall.imp ?_⟩
  intro d d1 h
  exact ⟨h.1.length_eq, fun id => h.1.count_eq id, h.1, h.2.1, h.2.2.1, h.2.2.2⟩

/-- C7 as stated fails: on the Day with sequence `[A, "random"]` and an empty
pool, a call with `t < DayLength` at cursor 0 returns the node `A`. -/
theorem C7_counterexample :
    dayEmptyPool.Random = [] ∧ "random" ∈ dayEmptyPool.Sequence ∧
      (dayEmptyPool.Next 100 0 0).1 = .ret "A" ∧
      ∀ (DayLength t : Int) (r : Nat), t < DayLength →
        (dayEmptyPool.Next DayLength t r).1 = .ret "A" :=
  ⟨rfl, by decide, by decide, fun DayLength t r ht =>
    Next_fixed DayLength dayEmptyPool t r 0 ht rfl (by decide) (by decide)⟩

/-- C7 amended: on a Day whose pool is empty, a call with `t < DayLength` and
pre-advance cursor `c >= 0` panics in `rand.Intn` (invalid argument, not an
index out of range) when `c` points at a sequence entry whose lower-cased form
is `"random"` or lies past the sequence, and returns `Sequence[c]` when `c`
points at any other sequence entry.  The call always terminates. -/
theorem C7_empty_pool_calls (DayLength : Int) (d : Day) (t : Int) (r : Nat) (c : Nat)
    (hpool : d.Random = []) (ht : t < DayLength) (hc : d.curr = (c : Int)) :
    (d.Next DayLength t r).1 =
      if hlt : c < d.Sequence.length then
        if ToLower d.Sequence[c] = "random" then .panic .invalidArgumentToIntn
        else .ret d.Sequence[c]
      else .panic .invalidArgumentToIntn := by
  have hnil := Intn_bind_index_nil r
  by_cases hlt : c < d.Sequence.length
  · by_cases htok : ToLower d.Sequence[c] = "random"
    · rw [Next_sampled DayLength d t r ht (Or.inl ⟨c, hc, hlt, htok⟩)]
      simp only [hlt, htok, dite_true, if_true, hpool]
      exact hnil
    · rw [Next_fixed DayLength d t r c ht hc hlt htok]
      simp only [hlt, htok, dite_true, if_false]
  · rw [Next_sampled DayLength d t r ht (Or.inr (by rw [hpool]; simp; omega))]
    simp only [hlt, dite_false, hpool]
    exact hnil

/-- C7 amended, on the Day with sequence `[A, "random"]` and an empty pool:
the calls at cursors 1 and 2 panic in `rand.Intn`. -/
theorem C7_empty_pool_calls_witness :
    (({ dayEmptyPool with curr := 1 } : Day).Next 100 0 0).1 = .panic .invalidArgumentToIntn ∧
    (({ dayEmptyPool with curr := 2 } : Day).Next 100 0 0).1 = .panic .invalidArgumentToIntn :=
  ⟨C7_empty_pool_calls 100 { dayEmptyPool with curr := 1 } 0 0 1 rfl (by decide) rfl,
   C7_empty_pool_calls 100 { dayEmptyPool with curr := 2 } 0 0 2 rfl (by decide) rfl⟩

/-- C8 as stated fails on the built-in table: `init`, run on a random source
that draws `j = 1` at loop variable 2 and `j = i` elsewhere, turns the first
Day into `dayAdjacent`, whose pool starts with `RandomDeposit_Polite` twice;
in every run of ten calls before the day is over, calls 9 and 10 (cursors 8
and 9, the first two positions of the first pass over the pool) both return
`RandomDeposit_Polite`. -/
theorem C8_counterexample :
    (init rndAdjacent Days).bind (fun days => index days 0) = .ret dayAdjacent ∧
      ∀ (DayLength : Int) (calls : List (Int × Nat)), calls.length = 10 →
        (∀ c ∈ calls, c.1 < DayLength) →
        (runCalls DayLength dayAdjacent calls).1.drop 8
          = [.ret "RandomDeposit_Polite", .ret "RandomDeposit_Polite"] := by
  refine ⟨by decide, ?_⟩
  intro DayLength calls hlen hall
  have hsplit : calls = calls.take 8 ++ calls.drop 8 := (List.take_append_drop 8 calls).symm
  have htake : (calls.take 8).length = 8 := by simp [hlen]
  have hdrop : (calls.drop 8).length = 2 := by simp [hlen]
  have hall1 : ∀ c ∈ calls.take 8, c.1 < DayLength :=
    fun c hc => hall c (List.mem_of_mem_take hc)
  have hall2 : ∀ c ∈ calls.drop 8, c.1 < DayLength :=
    fun c hc => hall c (List.mem_of_mem_drop hc)
  rw [hsplit, runCalls_append, List.drop_left' (by rw [runCalls_length, htake]),
    runCalls_state DayLength _ dayAdjacent hall1 (by decide) (by rw [htake]; decide), htake]
  have h := runCalls_walk DayLength (calls.drop 8)
    { dayAdjacent with curr := dayAdjacent.curr + (8 : Nat) } 0 (by decide)
    (by rw [hdrop]; decide) hall2
  rw [h, hdrop]
  decide

/-- C8 amended: during the first pass over the pool two consecutive calls
with `t < DayLength` return the pool entries at two consecutive positions, so
they return the same identifier exactly when the pool holds that identifier
at both positions; when no two neighbouring pool entries are equal, no two
consecutive calls of the first pass return the same identifier. -/
theorem C8_first_pass_neighbours (DayLength : Int) (d : Day) (k : Nat)
    (t1 t2 : Int) (r1 r2 : Nat) (ht1 : t1 < DayLength) (ht2 : t2 < DayLength)
    (hc : d.curr = (d.Sequence.length : Int) + (k : Int)) (hk : k + 1 < d.Random.length) :
    ∃ a b, d.Random[k]? = some a ∧ d.Random[k + 1]? = some b ∧
      (runCalls DayLength d [(t1, r1), (t2, r2)]).1 = [.ret a, .ret b] ∧
      (List.Chain' (fun x y => x ≠ y) d.Random → a ≠ b) := by
  have hk0 : k < d.Random.length := by omega
  refine ⟨d.Random[k], d.Random[k + 1], List.getElem?_eq_getElem hk0,
    List.getElem?_eq_getElem hk, ?_, ?_⟩
  · have h := runCalls_walk DayLength [(t1, r1), (t2, r2)] d k hc (by simpa using hk)
      (by intro c hcm; simp at hcm; rcases hcm with rfl | rfl <;> assumption)
    rw [h, List.drop_eq_getElem_cons hk0, List.drop_eq_getElem_cons hk]
    rfl
  · intro hchain
    have h := List.chain'_iff_get.mp hchain k (by omega)
    simpa using h

/-- C8 amended, on the pool of the table as written (no equal neighbours):
from cursor 8 the next two calls return two different identifiers. -/
theorem C8_first_pass_neighbours_witness :
    ∃ a b, (runCalls 100 ({ dayAdjacent with
        Random := ["RandomDeposit_Polite", "RandomDeposit_Rude", "RandomDeposit_Polite",
          "RandomDeposit_Rude", "RandomWithdrawal_Polite", "RandomWithdrawal_Rude"],
        curr := 8 } : Day) [(0, 0), (1, 0)]).1 = [.ret a, .ret b] ∧ a ≠ b :=
  (C8_first_pass_neighbours 100 { dayAdjacent with
      Random := ["RandomDeposit_Polite", "RandomDeposit_Rude", "RandomDeposit_Polite",
        "RandomDeposit_Rude", "RandomWithdrawal_Polite", "RandomWithdrawal_Rude"],
      curr := 8 } 0 0 1 0 0 (by decide) (by decide) (by decide) (by decide)).imp
    (fun _ h => h.imp (fun _ h => ⟨h.2.2.1, h.2.2.2 (by simp [List.chain'_cons])⟩))


/-! ## The claim about `MainScene.Command` -/

/-- C9 (unknown command is local): the `switch` of `Command` has no case
besides `default`, so no token is a recognised command; for every scene and
every command string the call returns normally (no panic), the returned error
is non-nil with message `unknown command <token>`, where `<token>` is the
first piece of the trimmed command split at spaces (its runes up to the first
space), and the scene after the call is the scene before it. -/
theorem C9_unknown_command_is_local (m : MainScene) (command : String) :
    (m.Command command).1 = .ret (some (GoError.mk ("unknown command " ++
        String.mk ((TrimSpace command).data.takeWhile (fun c => decide (c ≠ ' ')))))) ∧
      (Split (TrimSpace command) ' ')[0]?
        = some (String.mk ((TrimSpace command).data.takeWhile (fun c => decide (c ≠ ' ')))) ∧
      (m.Command command).2.1 = m := by
  obtain ⟨rest, hrest⟩ := splitRunes_head ' ' (TrimSpace command).data
  refine ⟨?_, by simp [Split, hrest], ?_⟩
  · simp [MainScene.Command, Split, hrest, index]
  · simp [MainScene.Command, Split, hrest, index]

/-- C9 on the command `frobnicate`, alone and padded with blanks and followed
by an argument: the error reads `unknown command frobnicate` and the scene is
unchanged. -/
theorem C9_unknown_command_is_local_witness :
    (sceneStart.Command "frobnicate").1
        = .ret (some { msg := "unknown command frobnicate" }) ∧
      (sceneStart.Command "  frobnicate now ").1
        = .ret (some { msg := "unknown command frobnicate" }) ∧
      (sceneStart.Command "frobnicate").2.1 = sceneStart :=
  ⟨(C9_unknown_command_is_local sceneStart "frobnicate").1,
   (C9_unknown_command_is_local sceneStart "  frobnicate now ").1,
   (C9_unknown_command_is_local sceneStart "frobnicate").2.2⟩

end LdJam53
